import Mathlib

/-!
Verification of the `finance_package` repository against its specification.

The repository ships a README and an example notebook; the package core
(`FinanceModels` with `CAPM`, `Black_Scholes`, `historical_simulation`, the
return-series helper and the market-data client) is not part of the source
tree, so every operation below is modelled from the specification text and
the claims are settled against these models.

The numeric type is ℝ: the spec states all formulas in exact real
arithmetic (ln, exp, sqrt, the standard normal CDF).
-/

namespace FinancePackage

open MeasureTheory

/-- Modelled from the spec: error taxonomy of §7 for the missing package
core (`InvalidInput`, `InvalidTicker`, `InsufficientData`,
`DegenerateParameters`, `DataUnavailable`) plus `InvalidOptionType` from
§4.4/§9. -/
inductive Err where
  | InvalidInput
  | InvalidTicker
  | InsufficientData
  | DegenerateParameters
  | DataUnavailable
  | InvalidOptionType
deriving DecidableEq

/-- Modelled from the spec: a `PriceSeries` (§3) is an ordered sequence of
(timestamp, price) pairs for one ticker, chronological. -/
abbrev PriceSeries := List (ℕ × ℝ)

/-- Modelled from the spec: the scalar and series figures the missing
`MarketDataClient` (§4.1) fetches for one ticker, bundled as a record so a
mocked data service is a concrete value of this type. -/
structure MarketData where
  priceSeries : PriceSeries
  beta : ℝ
  riskFreeRate : ℝ
  marketReturn : ℝ
  latestPrice : ℝ
  volatility : ℝ

/-- Modelled from the spec: `ReturnSeries.fromPrices` (§4.2) — fails with
`InsufficientData` on fewer than 2 price points, otherwise returns the
simple period-over-period returns `price[t]/price[t-1] - 1`, one element
shorter than the input. -/
noncomputable def fromPrices (prices : PriceSeries) : Except Err (List ℝ) :=
  let ps := prices.map Prod.snd
  if ps.length < 2 then .error .InsufficientData
  else .ok (List.zipWith (fun prev cur => cur / prev - 1) ps ps.tail)

/-- Arithmetic mean of a list of reals, used to aggregate a return series
to one scalar actual-return figure (§4.3 "aggregated (e.g. mean)"). -/
noncomputable def mean (xs : List ℝ) : ℝ := xs.sum / xs.length

/-- Modelled from the spec: `CAPMCalculator.computeAlpha` (§4.3) for the
missing package core. With the data service mocked by `data`: derive the
realized return via `fromPrices`, aggregate by `mean`, and return
`actualReturn - (riskFreeRate + beta * (marketReturn - riskFreeRate))`.
(Finiteness checks of §4.3 are vacuous over ℝ.) -/
noncomputable def CAPM (data : MarketData) : Except Err ℝ :=
  match fromPrices data.priceSeries with
  | .error e => .error e
  | .ok rets =>
      let actualReturn := mean rets
      let expectedReturn :=
        data.riskFreeRate + data.beta * (data.marketReturn - data.riskFreeRate)
      .ok (actualReturn - expectedReturn)

/-- Modelled from the spec: the empirical quantile of an ascending list at
probability `p`, with linear interpolation between the two nearest order
statistics at the (possibly non-integral) index `p * (length - 1)`
(§4.5, §9 interpolation note). -/
noncomputable def quantile (sorted : List ℝ) (p : ℝ) : ℝ :=
  let idx : ℝ := p * ((sorted.length : ℝ) - 1)
  let lo : ℕ := ⌊idx⌋.toNat
  let frac : ℝ := idx - (lo : ℝ)
  sorted.getD lo 0 + frac * (sorted.getD (lo + 1) 0 - sorted.getD lo 0)

/-- Ascending sort of a return series (§4.5 "Sort returns ascending"). -/
noncomputable def sortReturns (rets : List ℝ) : List ℝ :=
  rets.insertionSort (· ≤ ·)

/-- Modelled from the spec: `HistoricalVaRCalculator.historicalVaR` (§4.5)
for the missing package core, with the data service mocked by `data`.
Validates `confidenceLevel ∈ (0, 1)` first (`InvalidInput` otherwise),
derives the return series, requires at least 2 returns (the spec's "e.g. 2"
minimum sample policy, `InsufficientData` otherwise), sorts ascending and
returns `-quantile(returns, 1 - confidenceLevel)`. -/
noncomputable def historical_simulation (data : MarketData)
    (confidence_level : ℝ) : Except Err ℝ :=
  if ¬ (0 < confidence_level ∧ confidence_level < 1) then .error .InvalidInput
  else
    match fromPrices data.priceSeries with
    | .error e => .error e
    | .ok rets =>
        if rets.length < 2 then .error .InsufficientData
        else .ok (-(quantile (sortReturns rets) (1 - confidence_level)))

/-- The standard normal probability density `exp(-t²/2) / sqrt(2π)`
("N" of §4.4 is its cumulative integral). -/
noncomputable def normPDF (t : ℝ) : ℝ :=
  Real.exp (-(t ^ 2) / 2) / Real.sqrt (2 * Real.pi)

/-- The standard normal cumulative distribution function, `N` in the
spec's Black-Scholes closed form (§4.4). -/
noncomputable def normCDF (x : ℝ) : ℝ := ∫ t in Set.Iic x, normPDF t

/-- The Black-Scholes auxiliary quantity
`d1 = (ln(spot/strike) + (r + vol²/2) T) / (vol √T)` (§4.4). -/
noncomputable def bsD1 (spot strike T r vol : ℝ) : ℝ :=
  (Real.log (spot / strike) + (r + vol ^ 2 / 2) * T) / (vol * Real.sqrt T)

/-- The Black-Scholes auxiliary quantity `d2 = d1 - vol √T` (§4.4). -/
noncomputable def bsD2 (spot strike T r vol : ℝ) : ℝ :=
  bsD1 spot strike T r vol - vol * Real.sqrt T

/-- The Black-Scholes call value
`spot · N(d1) - strike · e^{-rT} · N(d2)` (§4.4). -/
noncomputable def bsCall (spot strike T r vol : ℝ) : ℝ :=
  spot * normCDF (bsD1 spot strike T r vol) -
    strike * Real.exp (-r * T) * normCDF (bsD2 spot strike T r vol)

/-- The Black-Scholes put value
`strike · e^{-rT} · N(-d2) - spot · N(-d1)` (§4.4). -/
noncomputable def bsPut (spot strike T r vol : ℝ) : ℝ :=
  strike * Real.exp (-r * T) * normCDF (-bsD2 spot strike T r vol) -
    spot * normCDF (-bsD1 spot strike T r vol)

/-- Modelled from the spec: `BlackScholesPricer.price` (§4.4) for the
missing package core, with the data service mocked by `data` (spot price
and volatility for the ticker, risk-free rate from the client). Validates
`spot > 0, strike > 0, T > 0, vol ≥ 0` (`InvalidInput` otherwise), guards
`vol · √T = 0` (`DegenerateParameters`), then dispatches on the option
type string, any value other than "call"/"put" failing with
`InvalidOptionType`. -/
noncomputable def Black_Scholes (data : MarketData) (optionType : String)
    (strikePrice timeToMaturity : ℝ) : Except Err ℝ :=
  let spot := data.latestPrice
  let vol := data.volatility
  let r := data.riskFreeRate
  if ¬ (0 < spot ∧ 0 < strikePrice ∧ 0 < timeToMaturity ∧ 0 ≤ vol) then
    .error .InvalidInput
  else if vol * Real.sqrt timeToMaturity = 0 then
    .error .DegenerateParameters
  else if optionType = "call" then
    .ok (bsCall spot strikePrice timeToMaturity r vol)
  else if optionType = "put" then
    .ok (bsPut spot strikePrice timeToMaturity r vol)
  else
    .error .InvalidOptionType

/-- A concrete three-point price series (all prices positive, strictly
rising), used as a mocked data-service fixture. -/
noncomputable def exPrices : PriceSeries := [(0, 1), (1, 2), (2, 4)]

/-- A concrete mocked data service built on `exPrices`. -/
noncomputable def exData : MarketData :=
  { priceSeries := exPrices
    beta := 1
    riskFreeRate := 0
    marketReturn := 0
    latestPrice := 100
    volatility := 1 }

/-- A concrete mocked data service for the TSLA end-to-end scenario:
stubbed spot price 250, volatility 1/2, risk-free rate 1/25. -/
noncomputable def tslaData : MarketData :=
  { priceSeries := []
    beta := 2
    riskFreeRate := 1 / 25
    marketReturn := 1 / 10
    latestPrice := 250
    volatility := 1 / 2 }

/-! ## Helper lemmas -/

lemma zipWith_tail_getD (f : ℝ → ℝ → ℝ) :
    ∀ (ps : List ℝ) (t : ℕ), t < (List.zipWith f ps ps.tail).length →
      (List.zipWith f ps ps.tail).getD t 0 = f (ps.getD t 0) (ps.getD (t + 1) 0) := by
  intro ps
  induction ps with
  | nil => intro t ht; simp at ht
  | cons a rest ih =>
    cases rest with
    | nil => intro t ht; simp at ht
    | cons b rest2 =>
      intro t ht
      cases t with
      | zero => simp [List.zipWith]
      | succ t =>
        have ht2 : t < (List.zipWith f (b :: rest2) (b :: rest2).tail).length := by
          simpa [List.zipWith] using ht
        simpa [List.zipWith] using ih t ht2

lemma fromPrices_ok (prices : PriceSeries) (h : 2 ≤ prices.length) :
    fromPrices prices =
      .ok (List.zipWith (fun prev cur => cur / prev - 1)
        (prices.map Prod.snd) (prices.map Prod.snd).tail) := by
  have hlen : ¬ (prices.map Prod.snd).length < 2 := by
    simp only [List.length_map]; omega
  simp only [fromPrices, if_neg hlen]

lemma fromPrices_short (prices : PriceSeries) (h : prices.length < 2) :
    fromPrices prices = .error .InsufficientData := by
  have h2 : (prices.map Prod.snd).length < 2 := by
    simp only [List.length_map]; omega
  simp only [fromPrices, if_pos h2]

lemma fromPrices_error {prices : PriceSeries} {e : Err}
    (h : fromPrices prices = .error e) : e = .InsufficientData := by
  by_cases h2 : prices.length < 2
  · rw [fromPrices_short prices h2] at h
    injection h with h
    exact h.symm
  · rw [fromPrices_ok prices (by omega)] at h
    simp at h

lemma fromPrices_exPrices : fromPrices exPrices = .ok [1, 1] := by
  norm_num [fromPrices, exPrices, List.zipWith]

/-! ## Claims about the return series (C4, C8) -/

/-- Claim C4: for every price series of length n ≥ 2, `fromPrices` returns
a sequence of exactly n-1 simple returns whose t-th element equals
`price[t+1]/price[t] - 1` (0-indexed; i.e. `p[t]/p[t-1] - 1` in the
spec's 1-indexed phrasing). -/
theorem fromPrices_simple_returns (prices : PriceSeries)
    (h : 2 ≤ prices.length) :
    ∃ rets, fromPrices prices = .ok rets ∧
      rets.length = prices.length - 1 ∧
      ∀ t, t < rets.length →
        rets.getD t 0 =
          (prices.map Prod.snd).getD (t + 1) 0 /
            (prices.map Prod.snd).getD t 0 - 1 := by
  refine ⟨_, fromPrices_ok prices h, ?_, ?_⟩
  · simp only [List.length_zipWith, List.length_tail, List.length_map]
    omega
  · intro t ht
    exact zipWith_tail_getD _ (prices.map Prod.snd) t ht

/-- Closed witness for C4 at the concrete fixture `exPrices`. -/
theorem fromPrices_simple_returns_witness :
    ∃ rets, fromPrices exPrices = .ok rets ∧
      rets.length = exPrices.length - 1 ∧
      ∀ t, t < rets.length →
        rets.getD t 0 =
          (exPrices.map Prod.snd).getD (t + 1) 0 /
            (exPrices.map Prod.snd).getD t 0 - 1 :=
  fromPrices_simple_returns exPrices (by norm_num [exPrices])

/-- Claim C8: `fromPrices` on a series with fewer than 2 points fails with
`InsufficientData`. -/
theorem fromPrices_insufficient_data (prices : PriceSeries)
    (h : prices.length < 2) :
    fromPrices prices = .error .InsufficientData :=
  fromPrices_short prices h

/-- Closed witness for C8: the empty series and a single-point series both
fail with `InsufficientData`. -/
theorem fromPrices_insufficient_data_witness :
    fromPrices [] = .error .InsufficientData ∧
      fromPrices [(0, 100)] = .error .InsufficientData :=
  ⟨fromPrices_insufficient_data [] (by norm_num),
    fromPrices_insufficient_data [(0, 100)] (by norm_num)⟩

lemma sortReturns_ones : sortReturns [(1 : ℝ), 1] = [1, 1] := by
  simp [sortReturns, List.insertionSort, List.orderedInsert]

lemma quantile_pair (a b p : ℝ) (hp0 : 0 ≤ p) (hp1 : p < 1) :
    quantile [a, b] p = a + p * (b - a) := by
  have hfloor : ⌊p * ((([a, b] : List ℝ).length : ℝ) - 1)⌋ = 0 := by
    rw [Int.floor_eq_zero_iff]
    refine Set.mem_Ico.mpr ⟨?_, ?_⟩ <;> norm_num [hp0, hp1]
  simp only [quantile, hfloor]
  norm_num

lemma historical_simulation_exData :
    historical_simulation exData 0.9 = .ok (-1) := by
  have hq : quantile [(1 : ℝ), 1] (1 - 0.9) = 1 := by
    rw [quantile_pair 1 1 (1 - 0.9) (by norm_num) (by norm_num)]
    norm_num
  have h2 : ¬ ([(1 : ℝ), 1].length < 2) := by norm_num
  have hd : exData.priceSeries = exPrices := rfl
  simp [historical_simulation, hd, fromPrices_exPrices, h2, sortReturns_ones, hq]
  norm_num

lemma zipWith_tail_returns_gt_neg_one :
    ∀ (ps : List ℝ), (∀ p ∈ ps, 0 < p) →
      ∀ x ∈ List.zipWith (fun prev cur => cur / prev - 1) ps ps.tail,
        -1 < x := by
  intro ps
  induction ps with
  | nil => intro _ x hx; simp at hx
  | cons a rest ih =>
    cases rest with
    | nil => intro _ x hx; simp at hx
    | cons b rest2 =>
      intro hpos x hx
      have ha : 0 < a := hpos a (by simp)
      have hb : 0 < b := hpos b (by simp)
      have hx2 : x = b / a - 1 ∨
          x ∈ List.zipWith (fun prev cur => cur / prev - 1) (b :: rest2) rest2 := by
        simpa using hx
      rcases hx2 with h | h
      · have hba : 0 < b / a := div_pos hb ha
        rw [h]; linarith
      · exact ih (fun p hp => hpos p (List.mem_cons_of_mem a hp)) x (by simpa using h)

lemma getD_gt_neg_one (s : List ℝ) (hs : ∀ x ∈ s, -1 < x) (n : ℕ) :
    -1 < s.getD n 0 := by
  by_cases h : n < s.length
  · rw [List.getD_eq_getElem s 0 h]
    exact hs _ (List.getElem_mem h)
  · rw [List.getD_eq_default s 0 (by omega)]
    norm_num

lemma quantile_gt_neg_one (s : List ℝ) (p : ℝ) (hp0 : 0 ≤ p) (hp1 : p ≤ 1)
    (hs : ∀ x ∈ s, -1 < x) (hne : s ≠ []) : -1 < quantile s p := by
  have hlen : 1 ≤ s.length := List.length_pos.mpr hne
  have hlenR : (1 : ℝ) ≤ (s.length : ℝ) := by exact_mod_cast hlen
  set idx := p * ((s.length : ℝ) - 1) with hidxdef
  have hidx0 : 0 ≤ idx := mul_nonneg hp0 (by linarith)
  have hflz : (0 : ℤ) ≤ ⌊idx⌋ := Int.floor_nonneg.mpr hidx0
  have hfl : ((⌊idx⌋.toNat : ℕ) : ℝ) = ((⌊idx⌋ : ℤ) : ℝ) := by
    exact_mod_cast Int.toNat_of_nonneg hflz
  have hfrac0 : 0 ≤ idx - ((⌊idx⌋.toNat : ℕ) : ℝ) := by
    rw [hfl]
    have := Int.floor_le idx
    linarith
  have hfrac1 : idx - ((⌊idx⌋.toNat : ℕ) : ℝ) < 1 := by
    rw [hfl]
    have := Int.lt_floor_add_one idx
    linarith
  have ha : -1 < s.getD ⌊idx⌋.toNat 0 := getD_gt_neg_one s hs _
  have hb : -1 < s.getD (⌊idx⌋.toNat + 1) 0 := getD_gt_neg_one s hs _
  show -1 < s.getD ⌊idx⌋.toNat 0 +
    (idx - ((⌊idx⌋.toNat : ℕ) : ℝ)) *
      (s.getD (⌊idx⌋.toNat + 1) 0 - s.getD ⌊idx⌋.toNat 0)
  nlinarith [mul_nonneg hfrac0 (by linarith : (0:ℝ) ≤ s.getD (⌊idx⌋.toNat + 1) 0 + 1),
    mul_pos (by linarith : (0:ℝ) < 1 - (idx - ((⌊idx⌋.toNat : ℕ) : ℝ)))
      (by linarith : (0:ℝ) < s.getD ⌊idx⌋.toNat 0 + 1)]

/-! ## Claims about historical VaR (C2, C9, C10) -/

/-- Claim C2: for a derivable, long-enough return series and
`confidenceLevel ∈ (0,1)`, `historical_simulation` sorts the returns
ascending (the sorted list is `≤`-sorted and a permutation of the
returns) and returns `-quantile(returns, 1 - confidenceLevel)`, where the
quantile at index `(1-confidenceLevel)·(n-1)` linearly interpolates
between the two nearest order statistics. -/
theorem historicalVaR_sorted_quantile (data : MarketData) (cl : ℝ)
    (rets : List ℝ) (hcl0 : 0 < cl) (hcl1 : cl < 1)
    (hrets : fromPrices data.priceSeries = .ok rets)
    (hlen : 2 ≤ rets.length) :
    historical_simulation data cl =
        .ok (-(quantile (sortReturns rets) (1 - cl))) ∧
      List.Sorted (· ≤ ·) (sortReturns rets) ∧
      (sortReturns rets).Perm rets ∧
      quantile (sortReturns rets) (1 - cl) =
        (sortReturns rets).getD
            (⌊(1 - cl) * (((sortReturns rets).length : ℝ) - 1)⌋.toNat) 0 +
          ((1 - cl) * (((sortReturns rets).length : ℝ) - 1) -
              ((⌊(1 - cl) * (((sortReturns rets).length : ℝ) - 1)⌋.toNat : ℕ) : ℝ)) *
            ((sortReturns rets).getD
                (⌊(1 - cl) * (((sortReturns rets).length : ℝ) - 1)⌋.toNat + 1) 0 -
              (sortReturns rets).getD
                (⌊(1 - cl) * (((sortReturns rets).length : ℝ) - 1)⌋.toNat) 0) := by
  have h2 : ¬ rets.length < 2 := by omega
  refine ⟨?_, List.sorted_insertionSort _ _, List.perm_insertionSort _ _, rfl⟩
  simp [historical_simulation, hrets, hcl0, hcl1, h2]

/-- Closed witness for C2 at the concrete fixture (`exData`, confidence
level 0.9, returns `[1, 1]`). -/
theorem historicalVaR_sorted_quantile_witness :
    historical_simulation exData 0.9 =
        .ok (-(quantile (sortReturns [1, 1]) (1 - 0.9))) ∧
      List.Sorted (· ≤ ·) (sortReturns [1, 1]) ∧
      (sortReturns [1, 1]).Perm [1, 1] ∧
      quantile (sortReturns [1, 1]) (1 - 0.9) =
        (sortReturns [1, 1]).getD
            (⌊(1 - 0.9) * (((sortReturns [1, 1]).length : ℝ) - 1)⌋.toNat) 0 +
          ((1 - 0.9) * (((sortReturns [1, 1]).length : ℝ) - 1) -
              ((⌊(1 - 0.9) * (((sortReturns [1, 1]).length : ℝ) - 1)⌋.toNat : ℕ) : ℝ)) *
            ((sortReturns [1, 1]).getD
                (⌊(1 - 0.9) * (((sortReturns [1, 1]).length : ℝ) - 1)⌋.toNat + 1) 0 -
              (sortReturns [1, 1]).getD
                (⌊(1 - 0.9) * (((sortReturns [1, 1]).length : ℝ) - 1)⌋.toNat) 0) :=
  historicalVaR_sorted_quantile exData 0.9 [1, 1] (by norm_num) (by norm_num)
    fromPrices_exPrices (by norm_num)

/-- Claim C9: `historical_simulation` fails with `InvalidInput` for every
confidence level outside (0,1) — before touching the data — and never
raises `InvalidInput` for a confidence level inside (0,1). -/
theorem historicalVaR_confidence_validation (data : MarketData) (cl : ℝ) :
    (¬ (0 < cl ∧ cl < 1) →
        historical_simulation data cl = .error .InvalidInput) ∧
      (0 < cl → cl < 1 →
        historical_simulation data cl ≠ .error .InvalidInput) := by
  constructor
  · intro h
    simp only [historical_simulation, if_pos h]
  · intro hcl0 hcl1
    unfold historical_simulation
    rw [if_neg (not_not_intro ⟨hcl0, hcl1⟩)]
    cases hfp : fromPrices data.priceSeries with
    | error e =>
        have he := fromPrices_error hfp
        subst he
        simp
    | ok rets =>
        by_cases h2 : rets.length < 2
        · simp [h2]
        · simp [h2]

/-- Closed witness for C9: confidence level 2 is rejected with
`InvalidInput`; confidence level 0.9 never yields `InvalidInput`. -/
theorem historicalVaR_confidence_validation_witness :
    historical_simulation exData 2 = .error .InvalidInput ∧
      historical_simulation exData 0.9 ≠ .error .InvalidInput :=
  ⟨(historicalVaR_confidence_validation exData 2).1 (by norm_num),
    (historicalVaR_confidence_validation exData 0.9).2 (by norm_num) (by norm_num)⟩

/-- Claim C10 counterexample: the claim "every value successfully returned
by historicalVaR lies in [0, 1)" is false on the model. On the fixture
`exData` (prices 1, 2, 4, so both returns are +100%) with confidence level
0.9 the operation succeeds with value -1, which is not ≥ 0. -/
theorem historicalVaR_not_nonneg :
    historical_simulation exData 0.9 = .ok (-1) ∧ ¬ ((0 : ℝ) ≤ -1) :=
  ⟨historical_simulation_exData, by norm_num⟩

/-- Claim C10 (amended): every value successfully returned by
`historical_simulation` is strictly below 1 (using the §3 `PriceSeries`
invariant that all prices are positive); the lower bound 0 of the claim
does not hold — the value is the negated interpolated quantile and is
negative whenever that quantile is positive. -/
theorem historicalVaR_lt_one (data : MarketData) (cl v : ℝ)
    (hprices : ∀ q ∈ data.priceSeries, 0 < q.2)
    (hok : historical_simulation data cl = .ok v) : v < 1 := by
  by_cases hcl : 0 < cl ∧ cl < 1
  case neg => simp [historical_simulation, hcl] at hok
  case pos =>
  unfold historical_simulation at hok
  rw [if_neg (not_not_intro hcl)] at hok
  cases hfp : fromPrices data.priceSeries with
  | error e => rw [hfp] at hok; simp at hok
  | ok rets =>
      rw [hfp] at hok
      by_cases h2 : rets.length < 2
      · simp [h2] at hok
      · simp only [h2, if_false] at hok
        have hret : ∀ x ∈ rets, -1 < x := by
          by_cases hpl : data.priceSeries.length < 2
          · rw [fromPrices_short _ hpl] at hfp; simp at hfp
          · rw [fromPrices_ok _ (by omega)] at hfp
            injection hfp with hfp
            intro x hx
            refine zipWith_tail_returns_gt_neg_one
              (data.priceSeries.map Prod.snd) ?_ x (by rw [hfp]; exact hx)
            intro p hp
            rcases List.mem_map.mp hp with ⟨q, hq, hqe⟩
            rw [← hqe]
            exact hprices q hq
        have hsorted : ∀ x ∈ sortReturns rets, -1 < x := fun x hx =>
          hret x ((List.perm_insertionSort _ rets).mem_iff.mp hx)
        have hne : sortReturns rets ≠ [] := by
          have hlen : (sortReturns rets).length = rets.length :=
            (List.perm_insertionSort _ rets).length_eq
          intro hnil
          rw [hnil] at hlen
          simp at hlen
          omega
        have hq := quantile_gt_neg_one (sortReturns rets) (1 - cl)
          (by linarith [hcl.2]) (by linarith [hcl.1]) hsorted hne
        injection hok with hok
        rw [← hok]
        linarith [hq]

/-- Closed witness for the amended C10 at the concrete fixture. -/
theorem historicalVaR_lt_one_witness : (-1 : ℝ) < 1 :=
  historicalVaR_lt_one exData 0.9 (-1)
    (by norm_num [exData, exPrices]) historical_simulation_exData

/-! ## Claim about CAPM (C3) -/

/-- Claim C3: whenever the ticker's return series is derivable, `CAPM`
returns `alpha = actualReturn - (riskFreeRate + beta * (marketReturn -
riskFreeRate))`, with `actualReturn` the mean realized return derived from
the price series via `fromPrices`. -/
theorem capm_alpha_formula (data : MarketData) (rets : List ℝ)
    (h : fromPrices data.priceSeries = .ok rets) :
    CAPM data = .ok (mean rets -
      (data.riskFreeRate + data.beta *
        (data.marketReturn - data.riskFreeRate))) := by
  simp [CAPM, h]

/-- Closed witness for C3 at the concrete mocked data service `exData`. -/
theorem capm_alpha_formula_witness :
    CAPM exData = .ok (mean [1, 1] -
      (exData.riskFreeRate + exData.beta *
        (exData.marketReturn - exData.riskFreeRate))) :=
  capm_alpha_formula exData [1, 1] fromPrices_exPrices

/-! ## Black-Scholes guard claims (C7, C1) -/

lemma black_scholes_call_eq (data : MarketData) (K T : ℝ)
    (hspot : 0 < data.latestPrice) (hK : 0 < K) (hT : 0 < T)
    (hvol : 0 < data.volatility) :
    Black_Scholes data "call" K T =
      .ok (bsCall data.latestPrice K T data.riskFreeRate data.volatility) := by
  have hne : data.volatility * Real.sqrt T ≠ 0 :=
    mul_ne_zero (ne_of_gt hvol) (ne_of_gt (Real.sqrt_pos.mpr hT))
  simp [Black_Scholes, hspot, hK, hT, le_of_lt hvol, hne]

lemma black_scholes_put_eq (data : MarketData) (K T : ℝ)
    (hspot : 0 < data.latestPrice) (hK : 0 < K) (hT : 0 < T)
    (hvol : 0 < data.volatility) :
    Black_Scholes data "put" K T =
      .ok (bsPut data.latestPrice K T data.riskFreeRate data.volatility) := by
  have hne : data.volatility * Real.sqrt T ≠ 0 :=
    mul_ne_zero (ne_of_gt hvol) (ne_of_gt (Real.sqrt_pos.mpr hT))
  simp [Black_Scholes, hspot, hK, hT, le_of_lt hvol, hne]

/-- Claim C7: with zero volatility and positive time to maturity (and the
other parameters in domain, so the `InvalidInput` validation passes), the
pricing operation fails with `DegenerateParameters` before the d1/d2
division is ever reached — for every option-type string. -/
theorem black_scholes_degenerate_zero_vol (data : MarketData)
    (optionType : String) (K T : ℝ) (hspot : 0 < data.latestPrice)
    (hK : 0 < K) (hT : 0 < T) (hvol : data.volatility = 0) :
    Black_Scholes data optionType K T = .error .DegenerateParameters := by
  simp [Black_Scholes, hspot, hK, hT, hvol]

/-- Closed witness for C7 at the TSLA fixture with volatility zeroed. -/
theorem black_scholes_degenerate_zero_vol_witness :
    Black_Scholes { tslaData with volatility := 0 } "call" 120 1 =
      .error .DegenerateParameters :=
  black_scholes_degenerate_zero_vol { tslaData with volatility := 0 } "call"
    120 1 (by norm_num [tslaData]) (by norm_num) (by norm_num) rfl

/-- Claim C1: for every valid input (positive spot, strike, maturity and
volatility; any finite rate), the pricing operation returns exactly the
standard Black-Scholes closed form:
`d1 = (ln(spot/strike) + (r + vol²/2)T) / (vol √T)`, `d2 = d1 - vol √T`,
`call = spot·N(d1) - strike·e^{-rT}·N(d2)`,
`put = strike·e^{-rT}·N(-d2) - spot·N(-d1)` with `N` the standard normal
CDF. -/
theorem black_scholes_closed_form (data : MarketData) (K T : ℝ)
    (hspot : 0 < data.latestPrice) (hK : 0 < K) (hT : 0 < T)
    (hvol : 0 < data.volatility) :
    Black_Scholes data "call" K T =
        .ok (data.latestPrice *
            normCDF ((Real.log (data.latestPrice / K) +
                (data.riskFreeRate + data.volatility ^ 2 / 2) * T) /
              (data.volatility * Real.sqrt T)) -
          K * Real.exp (-data.riskFreeRate * T) *
            normCDF ((Real.log (data.latestPrice / K) +
                  (data.riskFreeRate + data.volatility ^ 2 / 2) * T) /
                (data.volatility * Real.sqrt T) -
              data.volatility * Real.sqrt T)) ∧
      Black_Scholes data "put" K T =
        .ok (K * Real.exp (-data.riskFreeRate * T) *
            normCDF (-((Real.log (data.latestPrice / K) +
                  (data.riskFreeRate + data.volatility ^ 2 / 2) * T) /
                (data.volatility * Real.sqrt T) -
              data.volatility * Real.sqrt T)) -
          data.latestPrice *
            normCDF (-((Real.log (data.latestPrice / K) +
                (data.riskFreeRate + data.volatility ^ 2 / 2) * T) /
              (data.volatility * Real.sqrt T)))) :=
  ⟨black_scholes_call_eq data K T hspot hK hT hvol,
    black_scholes_put_eq data K T hspot hK hT hvol⟩

/-- Closed witness for C1: the end-to-end TSLA scenario with the mocked
data service `tslaData` — `price("TSLA","call",120,1)` and
`price("TSLA","put",100,0.5)` return exactly the reference closed-form
values. -/
theorem black_scholes_closed_form_witness :
    Black_Scholes tslaData "call" 120 1 =
        .ok (tslaData.latestPrice *
            normCDF ((Real.log (tslaData.latestPrice / 120) +
                (tslaData.riskFreeRate + tslaData.volatility ^ 2 / 2) * 1) /
              (tslaData.volatility * Real.sqrt 1)) -
          120 * Real.exp (-tslaData.riskFreeRate * 1) *
            normCDF ((Real.log (tslaData.latestPrice / 120) +
                  (tslaData.riskFreeRate + tslaData.volatility ^ 2 / 2) * 1) /
                (tslaData.volatility * Real.sqrt 1) -
              tslaData.volatility * Real.sqrt 1)) ∧
      Black_Scholes tslaData "put" 100 0.5 =
        .ok (100 * Real.exp (-tslaData.riskFreeRate * 0.5) *
            normCDF (-((Real.log (tslaData.latestPrice / 100) +
                  (tslaData.riskFreeRate + tslaData.volatility ^ 2 / 2) * 0.5) /
                (tslaData.volatility * Real.sqrt 0.5) -
              tslaData.volatility * Real.sqrt 0.5)) -
          tslaData.latestPrice *
            normCDF (-((Real.log (tslaData.latestPrice / 100) +
                (tslaData.riskFreeRate + tslaData.volatility ^ 2 / 2) * 0.5) /
              (tslaData.volatility * Real.sqrt 0.5)))) :=
  ⟨(black_scholes_closed_form tslaData 120 1 (by norm_num [tslaData])
      (by norm_num) (by norm_num) (by norm_num [tslaData])).1,
    (black_scholes_closed_form tslaData 100 0.5 (by norm_num [tslaData])
      (by norm_num) (by norm_num) (by norm_num [tslaData])).2⟩

/-! ## The standard normal distribution -/

lemma normPDF_fun_eq :
    normPDF = fun t => Real.exp (-(1/2) * t ^ 2) * (Real.sqrt (2 * Real.pi))⁻¹ := by
  funext t
  unfold normPDF
  rw [div_eq_mul_inv]
  have h : -(t ^ 2) / 2 = -(1/2) * t ^ 2 := by ring
  rw [h]

lemma normPDF_pos (t : ℝ) : 0 < normPDF t := by
  unfold normPDF
  apply div_pos (Real.exp_pos _)
  apply Real.sqrt_pos.mpr
  positivity

lemma continuous_normPDF : Continuous normPDF := by
  unfold normPDF
  continuity

lemma integrable_normPDF : Integrable normPDF := by
  rw [normPDF_fun_eq]
  exact (integrable_exp_neg_mul_sq (by norm_num : (0:ℝ) < 1/2)).mul_const _

lemma integral_normPDF : ∫ t, normPDF t = 1 := by
  rw [normPDF_fun_eq, integral_mul_right, integral_gaussian,
    show Real.pi / (1/2) = 2 * Real.pi by ring]
  exact mul_inv_cancel₀ (ne_of_gt (Real.sqrt_pos.mpr (by positivity)))

lemma normPDF_neg (t : ℝ) : normPDF (-t) = normPDF t := by
  unfold normPDF
  rw [neg_sq]

lemma normCDF_add_neg (x : ℝ) : normCDF x + normCDF (-x) = 1 := by
  have h1 : normCDF (-x) = ∫ t in Set.Ioi x, normPDF t := by
    unfold normCDF
    calc ∫ t in Set.Iic (-x), normPDF t
        = ∫ t in Set.Iic (-x), normPDF (-t) :=
          setIntegral_congr_fun measurableSet_Iic fun t _ => (normPDF_neg t).symm
      _ = ∫ t in Set.Ioi (-(-x)), normPDF t := integral_comp_neg_Iic (-x) normPDF
      _ = ∫ t in Set.Ioi x, normPDF t := by rw [neg_neg]
  rw [h1]
  unfold normCDF
  rw [intervalIntegral.integral_Iic_add_Ioi integrable_normPDF.integrableOn
    integrable_normPDF.integrableOn]
  exact integral_normPDF

/-! ## Claim C5: put-call parity -/

/-- Claim C5: for identical parameters the Black-Scholes call and put
values satisfy put-call parity `call - put = spot - strike·e^{-rT}`
(exactly, over ℝ — hence in particular within any tolerance). -/
theorem put_call_parity (spot strike T r vol : ℝ) :
    bsCall spot strike T r vol - bsPut spot strike T r vol =
      spot - strike * Real.exp (-r * T) := by
  have h1 := normCDF_add_neg (bsD1 spot strike T r vol)
  have h2 := normCDF_add_neg (bsD2 spot strike T r vol)
  unfold bsCall bsPut
  linear_combination spot * h1 - strike * Real.exp (-r * T) * h2

/-! ## Differentiability of the normal CDF and the Black-Scholes vega -/

lemma hasDerivAt_normCDF (x : ℝ) : HasDerivAt normCDF (normPDF x) x := by
  have key : normCDF = fun y => normCDF 0 + ∫ t in (0:ℝ)..y, normPDF t := by
    funext y
    rw [← intervalIntegral.integral_Iic_sub_Iic integrable_normPDF.integrableOn
      integrable_normPDF.integrableOn]
    unfold normCDF
    ring_nf
  rw [key]
  exact (intervalIntegral.integral_hasDerivAt_right
    integrable_normPDF.intervalIntegrable
    (continuous_normPDF.stronglyMeasurableAtFilter _ _)
    continuous_normPDF.continuousAt).const_add (normCDF 0)

lemma bs_pdf_identity (S K T r v : ℝ) (hS : 0 < S) (hK : 0 < K)
    (hT : 0 < T) (hv : 0 < v) :
    K * Real.exp (-r * T) * normPDF (bsD2 S K T r v) =
      S * normPDF (bsD1 S K T r v) := by
  have hc : 0 < Real.sqrt T := Real.sqrt_pos.mpr hT
  have hc2 : Real.sqrt T ^ 2 = T := Real.sq_sqrt hT.le
  have hu : v * Real.sqrt T ≠ 0 := (mul_pos hv hc).ne'
  have hd2sq : bsD2 S K T r v ^ 2 =
      bsD1 S K T r v ^ 2 - 2 * (Real.log (S / K) + r * T) := by
    unfold bsD2
    have expand : (bsD1 S K T r v - v * Real.sqrt T) ^ 2 =
        bsD1 S K T r v ^ 2 -
          2 * (bsD1 S K T r v * (v * Real.sqrt T)) +
          (v * Real.sqrt T) ^ 2 := by ring
    rw [expand]
    have hcancel : bsD1 S K T r v * (v * Real.sqrt T) =
        Real.log (S / K) + (r + v ^ 2 / 2) * T := by
      unfold bsD1
      exact div_mul_cancel₀ _ hu
    rw [hcancel]
    have hvc2 : (v * Real.sqrt T) ^ 2 = v ^ 2 * T := by
      rw [mul_pow, hc2]
    rw [hvc2]
    ring
  unfold normPDF
  have lhs_eq : K * Real.exp (-r * T) *
      (Real.exp (-(bsD2 S K T r v ^ 2) / 2) / Real.sqrt (2 * Real.pi)) =
      Real.exp (Real.log K + -(r * T) + -(bsD2 S K T r v ^ 2) / 2) /
        Real.sqrt (2 * Real.pi) := by
    rw [Real.exp_add, Real.exp_add, Real.exp_log hK]
    ring
  have rhs_eq : S *
      (Real.exp (-(bsD1 S K T r v ^ 2) / 2) / Real.sqrt (2 * Real.pi)) =
      Real.exp (Real.log S + -(bsD1 S K T r v ^ 2) / 2) /
        Real.sqrt (2 * Real.pi) := by
    rw [Real.exp_add, Real.exp_log hS]
    ring
  rw [lhs_eq, rhs_eq]
  congr 2
  rw [hd2sq, Real.log_div hS.ne' hK.ne']
  ring

lemma hasDerivAt_bsD1_vol (S K T r : ℝ) (hT : 0 < T) (v : ℝ) (hv : 0 < v) :
    HasDerivAt (fun σ => bsD1 S K T r σ)
      ((v * T * (v * Real.sqrt T) -
          (Real.log (S / K) + (r + v ^ 2 / 2) * T) * Real.sqrt T) /
        (v * Real.sqrt T) ^ 2) v := by
  have hc : 0 < Real.sqrt T := Real.sqrt_pos.mpr hT
  have hden : v * Real.sqrt T ≠ 0 := (mul_pos hv hc).ne'
  have hnum : HasDerivAt
      (fun σ : ℝ => Real.log (S / K) + (r + σ ^ 2 / 2) * T) (v * T) v := by
    have h1 : HasDerivAt (fun σ : ℝ => σ ^ 2) (2 * v) v := by
      simpa using hasDerivAt_pow 2 v
    have h2 : HasDerivAt (fun σ : ℝ => (r + σ ^ 2 / 2) * T) (v * T) v := by
      have h3 := ((h1.div_const 2).const_add r).mul_const T
      have hval : 2 * v / 2 * T = v * T := by ring
      rw [hval] at h3
      exact h3
    simpa using h2.const_add (Real.log (S / K))
  have hdenf : HasDerivAt (fun σ : ℝ => σ * Real.sqrt T) (Real.sqrt T) v := by
    simpa using (hasDerivAt_id v).mul_const (Real.sqrt T)
  exact hnum.div hdenf hden

lemma hasDerivAt_bsCall_vol (S K T r : ℝ) (hS : 0 < S) (hK : 0 < K)
    (hT : 0 < T) (v : ℝ) (hv : 0 < v) :
    HasDerivAt (fun σ => bsCall S K T r σ)
      (S * normPDF (bsD1 S K T r v) * Real.sqrt T) v := by
  have h1 := hasDerivAt_bsD1_vol S K T r hT v hv
  set d1' := (v * T * (v * Real.sqrt T) -
      (Real.log (S / K) + (r + v ^ 2 / 2) * T) * Real.sqrt T) /
    (v * Real.sqrt T) ^ 2 with hd1'
  have h2 : HasDerivAt (fun σ => bsD2 S K T r σ) (d1' - Real.sqrt T) v := by
    have h3 := h1.sub ((hasDerivAt_id v).mul_const (Real.sqrt T))
    have hval : d1' - 1 * Real.sqrt T = d1' - Real.sqrt T := by ring
    rw [hval] at h3
    exact h3
  have hN1 : HasDerivAt (fun σ => normCDF (bsD1 S K T r σ))
      (normPDF (bsD1 S K T r v) * d1') v :=
    (hasDerivAt_normCDF (bsD1 S K T r v)).comp v h1
  have hN2 : HasDerivAt (fun σ => normCDF (bsD2 S K T r σ))
      (normPDF (bsD2 S K T r v) * (d1' - Real.sqrt T)) v :=
    (hasDerivAt_normCDF (bsD2 S K T r v)).comp v h2
  have hcall : HasDerivAt (fun σ => bsCall S K T r σ)
      (S * (normPDF (bsD1 S K T r v) * d1') -
        K * Real.exp (-r * T) *
          (normPDF (bsD2 S K T r v) * (d1' - Real.sqrt T))) v :=
    (hN1.const_mul S).sub (hN2.const_mul (K * Real.exp (-r * T)))
  have hid := bs_pdf_identity S K T r v hS hK hT hv
  have hval : S * (normPDF (bsD1 S K T r v) * d1') -
      K * Real.exp (-r * T) *
        (normPDF (bsD2 S K T r v) * (d1' - Real.sqrt T)) =
      S * normPDF (bsD1 S K T r v) * Real.sqrt T := by
    linear_combination (Real.sqrt T - d1') * hid
  rw [hval] at hcall
  exact hcall

lemma bsCall_mono_vol (S K T r : ℝ) (hS : 0 < S) (hK : 0 < K) (hT : 0 < T) :
    ∀ v1 v2, 0 < v1 → v1 ≤ v2 →
      bsCall S K T r v1 ≤ bsCall S K T r v2 := by
  have hmono : StrictMonoOn (fun σ => bsCall S K T r σ) (Set.Ioi 0) := by
    apply strictMonoOn_of_deriv_pos (convex_Ioi 0)
    · intro x hx
      exact ((hasDerivAt_bsCall_vol S K T r hS hK hT x hx).continuousAt).continuousWithinAt
    · intro x hx
      rw [interior_Ioi] at hx
      rw [(hasDerivAt_bsCall_vol S K T r hS hK hT x hx).deriv]
      exact mul_pos (mul_pos hS (normPDF_pos _)) (Real.sqrt_pos.mpr hT)
  intro v1 v2 h1 h12
  exact hmono.monotoneOn (Set.mem_Ioi.mpr h1)
    (Set.mem_Ioi.mpr (lt_of_lt_of_le h1 h12)) h12

lemma bsD2_mul (S K T r v : ℝ) (hT : 0 < T) (hv : 0 < v) :
    bsD2 S K T r v * (v * Real.sqrt T) =
      (Real.log (S / K) + r * T) - (v * Real.sqrt T) ^ 2 / 2 := by
  have hc : 0 < Real.sqrt T := Real.sqrt_pos.mpr hT
  have hu : v * Real.sqrt T ≠ 0 := (mul_pos hv hc).ne'
  have hc2 : Real.sqrt T ^ 2 = T := Real.sq_sqrt hT.le
  unfold bsD2 bsD1
  rw [sub_mul, div_mul_cancel₀ _ hu]
  rw [show (v * Real.sqrt T) * (v * Real.sqrt T) = v ^ 2 * Real.sqrt T ^ 2 by ring,
    show (v * Real.sqrt T) ^ 2 = v ^ 2 * Real.sqrt T ^ 2 by ring, hc2]
  ring

lemma bsCall_nonneg (S K T r v : ℝ) (hS : 0 < S) (hK : 0 < K)
    (hT : 0 < T) (hv : 0 < v) : 0 ≤ bsCall S K T r v := by
  set c := v * Real.sqrt T with hcdef
  have hc : 0 < c := mul_pos hv (Real.sqrt_pos.mpr hT)
  have hd1 : bsD1 S K T r v = bsD2 S K T r v + c := by
    unfold bsD2
    ring
  have htrans : ∫ t in Set.Iic (bsD2 S K T r v + c), normPDF t
      = ∫ u in Set.Iic (bsD2 S K T r v), normPDF (u + c) := by
    have hmp : MeasurePreserving (fun u : ℝ => u + c) volume volume :=
      measurePreserving_add_right volume c
    have hme : MeasurableEmbedding (fun u : ℝ => u + c) :=
      (MeasurableEquiv.addRight c).measurableEmbedding
    have h := hmp.setIntegral_preimage_emb hme normPDF
      (Set.Iic (bsD2 S K T r v + c))
    rw [Set.preimage_add_const_Iic, show bsD2 S K T r v + c - c
      = bsD2 S K T r v by ring] at h
    exact h.symm
  have hint1 : Integrable (fun u : ℝ => normPDF (u + c)) := by
    have h := (measurePreserving_add_right volume c).integrable_comp_emb
      (MeasurableEquiv.addRight c).measurableEmbedding
      (g := normPDF)
    exact h.mpr integrable_normPDF
  have hpt : ∀ u ∈ Set.Iic (bsD2 S K T r v),
      K * Real.exp (-r * T) * normPDF u ≤ S * normPDF (u + c) := by
    intro u hu
    have hu2 : u ≤ bsD2 S K T r v := hu
    have huc : u * c ≤ (Real.log (S / K) + r * T) - c ^ 2 / 2 := by
      have h := mul_le_mul_of_nonneg_right hu2 hc.le
      rw [bsD2_mul S K T r v hT hv] at h
      rw [hcdef]
      exact h
    have hlog : Real.log (S / K) = Real.log S - Real.log K :=
      Real.log_div hS.ne' hK.ne'
    have lhs_eq : K * Real.exp (-r * T) * normPDF u =
        Real.exp (Real.log K + -(r * T) + -(u ^ 2) / 2) /
          Real.sqrt (2 * Real.pi) := by
      unfold normPDF
      rw [Real.exp_add, Real.exp_add, Real.exp_log hK]
      ring
    have rhs_eq : S * normPDF (u + c) =
        Real.exp (Real.log S + -((u + c) ^ 2) / 2) /
          Real.sqrt (2 * Real.pi) := by
      unfold normPDF
      rw [Real.exp_add, Real.exp_log hS]
      ring
    rw [lhs_eq, rhs_eq]
    have hsqrtpos : 0 < Real.sqrt (2 * Real.pi) :=
      Real.sqrt_pos.mpr (by positivity)
    rw [div_le_div_iff_of_pos_right hsqrtpos]
    apply Real.exp_le_exp.mpr
    nlinarith [huc, hlog]
  have key : K * Real.exp (-r * T) * normCDF (bsD2 S K T r v) ≤
      S * normCDF (bsD1 S K T r v) := by
    rw [hd1]
    unfold normCDF
    rw [htrans, ← integral_mul_left, ← integral_mul_left]
    exact setIntegral_mono_on
      (integrable_normPDF.integrableOn.const_mul _)
      (hint1.integrableOn.const_mul _)
      measurableSet_Iic hpt
  unfold bsCall
  exact sub_nonneg.mpr key

lemma bsD1_swap (S K T r v : ℝ) (hS : 0 < S) (hK : 0 < K)
    (hT : 0 < T) (hv : 0 < v) :
    bsD1 (K * Real.exp (-r * T)) S T 0 v = -(bsD2 S K T r v) := by
  have hc : 0 < Real.sqrt T := Real.sqrt_pos.mpr hT
  have hvc : v * Real.sqrt T ≠ 0 := (mul_pos hv hc).ne'
  have hsq : Real.sqrt T ^ 2 = T := Real.sq_sqrt hT.le
  unfold bsD2 bsD1
  have hlog : Real.log ((K * Real.exp (-r * T)) / S) =
      Real.log K + -r * T - Real.log S := by
    rw [Real.log_div (by positivity) hS.ne',
      Real.log_mul hK.ne' (Real.exp_ne_zero _), Real.log_exp]
  rw [hlog, Real.log_div hS.ne' hK.ne']
  field_simp
  linear_combination (-2 * v ^ 2) * hsq

lemma bsD2_swap (S K T r v : ℝ) (hS : 0 < S) (hK : 0 < K)
    (hT : 0 < T) (hv : 0 < v) :
    bsD2 (K * Real.exp (-r * T)) S T 0 v = -(bsD1 S K T r v) := by
  show bsD1 (K * Real.exp (-r * T)) S T 0 v - v * Real.sqrt T =
    -(bsD1 S K T r v)
  rw [bsD1_swap S K T r v hS hK hT hv]
  unfold bsD2
  ring

lemma bsPut_eq_bsCall_swap (S K T r v : ℝ) (hS : 0 < S) (hK : 0 < K)
    (hT : 0 < T) (hv : 0 < v) :
    bsPut S K T r v = bsCall (K * Real.exp (-r * T)) S T 0 v := by
  unfold bsPut bsCall
  rw [bsD1_swap S K T r v hS hK hT hv, bsD2_swap S K T r v hS hK hT hv,
    show (-(0:ℝ) * T) = 0 by ring, Real.exp_zero]
  ring

/-! ## Claim C6: non-negativity and monotonicity in volatility -/

/-- Claim C6: for every valid parameter set the Black-Scholes price (call
and put alike) is non-negative, and with spot, strike, maturity and rate
held fixed it is monotone non-decreasing in volatility. -/
theorem bs_price_nonneg_monotone (spot K T r : ℝ)
    (hspot : 0 < spot) (hK : 0 < K) (hT : 0 < T) :
    (∀ vol, 0 < vol →
        0 ≤ bsCall spot K T r vol ∧ 0 ≤ bsPut spot K T r vol) ∧
      ∀ v1 v2, 0 < v1 → v1 ≤ v2 →
        bsCall spot K T r v1 ≤ bsCall spot K T r v2 ∧
          bsPut spot K T r v1 ≤ bsPut spot K T r v2 := by
  have hKe : 0 < K * Real.exp (-r * T) := mul_pos hK (Real.exp_pos _)
  constructor
  · intro vol hvol
    refine ⟨bsCall_nonneg spot K T r vol hspot hK hT hvol, ?_⟩
    rw [bsPut_eq_bsCall_swap spot K T r vol hspot hK hT hvol]
    exact bsCall_nonneg _ spot T 0 vol hKe hspot hT hvol
  · intro v1 v2 h1 h12
    refine ⟨bsCall_mono_vol spot K T r hspot hK hT v1 v2 h1 h12, ?_⟩
    rw [bsPut_eq_bsCall_swap spot K T r v1 hspot hK hT h1,
      bsPut_eq_bsCall_swap spot K T r v2 hspot hK hT (lt_of_lt_of_le h1 h12)]
    exact bsCall_mono_vol _ spot T 0 hKe hspot hT v1 v2 h1 h12

/-- Closed witness for C6 at spot 2, strike 1, T = 1, r = 0 and the
volatilities 1 ≤ 2. -/
theorem bs_price_nonneg_monotone_witness :
    (0 ≤ bsCall 2 1 1 0 1 ∧ 0 ≤ bsPut 2 1 1 0 1) ∧
      bsCall 2 1 1 0 1 ≤ bsCall 2 1 1 0 2 ∧
        bsPut 2 1 1 0 1 ≤ bsPut 2 1 1 0 2 :=
  ⟨(bs_price_nonneg_monotone 2 1 1 0 (by norm_num) (by norm_num)
      (by norm_num)).1 1 (by norm_num),
    (bs_price_nonneg_monotone 2 1 1 0 (by norm_num) (by norm_num)
      (by norm_num)).2 1 2 (by norm_num) (by norm_num)⟩

end FinancePackage
